import Mathlib

/-!
Verification development for the claude-slack-bot orchestration core.

The definitions below are a shallow embedding of the Python modules
`app/claude_slack_bot/session.py`, `app/claude_slack_bot/bot.py` and
`app/claude_slack_bot/claude_runner.py`.  Python strings are modelled as
Lean `String`s: both are sequences of Unicode code points, and Python
slicing `s[:n]` corresponds to `String.take s n`.  Python `dict`s keyed
by `(channel, thread_ts)` pairs are modelled as functions into `Option`.
The asyncio scheduling of `SessionQueue` is modelled as a small-step
transition system whose atomic steps are exactly the scheduler slices of
the source (code between two suspension points runs without
interleaving; `asyncio.Queue.put`/`get` on an unbounded, non-empty queue
and `asyncio.create_task` do not yield).
-/

namespace ClaudeSlackBot

/-- A conversation key: the `(channel, thread_ts)` pair used by
`SessionStore` and `SessionQueue` (`session.py`). -/
abbrev Key := String × String

/-- The state of `SessionStore`: the `_sessions` dict mapping
`(channel, thread_ts)` to a Claude session id (`session.py` lines 17-22).
Note on fidelity: `SessionStore.get` at `session.py` line 36 reads
`return self._sessions.get((channel, thread_ts)` with the closing
parenthesis missing, which makes the module raise `SyntaxError` on
import; the embedding below restores the parenthesis, following the
method's docstring and the module's own test suite
(`tests/test_session.py`). -/
def SessionStore := Key → Option String

/-- An empty session store (`SessionStore.__init__`). -/
def SessionStore.emptyStore : SessionStore := fun _ => none

/-- Look up the Claude session id for a Slack thread
(`SessionStore.get`, `session.py` lines 24-36, with the missing
parenthesis of line 36 restored). -/
def SessionStore.get (st : SessionStore) (channel thread_ts : String) : Option String :=
  st (channel, thread_ts)

/-- Store a Claude session id for a Slack thread
(`SessionStore.set`, `session.py` lines 38-48). -/
def SessionStore.set (st : SessionStore) (channel thread_ts session_id : String) :
    SessionStore :=
  fun p => if p = (channel, thread_ts) then some session_id else st p

/-- Result of one Claude Code invocation (`claude_runner.py` lines 60-77). -/
structure ClaudeResult where
  output : String
  is_error : Bool
  num_turns : Nat
  duration_ms : Nat
  session_id : String
deriving DecidableEq

/-- The truncation marker appended by `_format_response`
(`bot.py` line 205). -/
def truncationMarker : String := "\n… (truncated)"

/-- Format a `ClaudeResult` into a Slack message (`_format_response`,
`bot.py` lines 187-210).  The external markdown-to-mrkdwn converter
(`SlackMarkdownConverter().convert`, an out-of-scope collaborator) is
passed in as the function `convert`. -/
def format_response (convert : String → String) (result : ClaudeResult)
    (max_length : Nat) : String :=
  let output : String := result.output.take max_length
  if result.is_error then
    "⚠️ Claude encountered an error:\n```" ++ output ++ "```"
  else
    let output2 : String :=
      if result.output.length > max_length then output ++ truncationMarker else output
    convert output2

/-- The subtype of the SDK system message that carries the initial
session id (`claude_runner.py` line 16). -/
def SESSION_ID_INIT_SUBTYPE : String := "init"

/-- A message surfaced by the SDK stream consumed by `run_claude`
(`claude_runner.py` lines 115-132): a `SystemMessage` with its subtype
and `data` dict, a `ResultMessage` with the fields the code reads, or
any other message type (ignored by the loop). -/
inductive SdkMessage where
  | system : String → List (String × String) → SdkMessage
  | result : Option String → Bool → Nat → Nat → String → SdkMessage
  | otherMessage : SdkMessage
deriving DecidableEq

/-- Python `d.get(k, dflt)` on a string-valued dict modelled as an
association list. -/
def dictGetD (d : List (String × String)) (k dflt : String) : String :=
  match d.find? (fun p => p.1 == k) with
  | some p => p.2
  | none => dflt

/-- Python `s or dflt` for an optional string `s` (`None` and the empty
string are falsy). -/
def pyOrOpt (s : Option String) (dflt : String) : String :=
  match s with
  | none => dflt
  | some t => if t = "" then dflt else t

/-- Python `s or dflt` for a plain string `s` (the empty string is
falsy). -/
def pyOrStr (s dflt : String) : String :=
  if s = "" then dflt else s

/-- Loop state of `run_claude`: the `result` and `captured_session_id`
locals (`claude_runner.py` lines 112-113). -/
structure RunAcc where
  result : Option ClaudeResult
  captured_session_id : String
deriving DecidableEq

/-- One iteration of the `async for` loop of `run_claude`
(`claude_runner.py` lines 115-132). -/
def runClaudeStep (acc : RunAcc) (m : SdkMessage) : RunAcc :=
  match m with
  | .system st data =>
      if st = SESSION_ID_INIT_SUBTYPE then
        { acc with captured_session_id := dictGetD data "session_id" "" }
      else acc
  | .result txt is_err turns dur sid =>
      let output : String := pyOrOpt txt "Done, no output."
      let captured : String := pyOrStr sid acc.captured_session_id
      { result := some ⟨output, is_err, turns, dur, captured⟩,
        captured_session_id := captured }
  | .otherMessage => acc

/-- The body of `run_claude` after option construction
(`claude_runner.py` lines 112-143), as a function of the SDK message
stream.  It always returns a `ClaudeResult` (never raises). -/
def run_claude (messages : List SdkMessage) : ClaudeResult :=
  let acc : RunAcc := messages.foldl runClaudeStep ⟨none, ""⟩
  match acc.result with
  | some r => r
  | none => ⟨"No result received from Claude.", true, 0, 0, acc.captured_session_id⟩

/-- Whether an SDK message is a `ResultMessage`. -/
def SdkMessage.isResult : SdkMessage → Bool
  | .result _ _ _ _ _ => true
  | _ => false

/-- The session tokens captured from `init` system messages, in stream
order: the values the `captured_session_id` local is assigned at
`claude_runner.py` line 120. -/
def initTokens (messages : List SdkMessage) : List String :=
  messages.filterMap fun m =>
    match m with
    | .system st data =>
        if st = SESSION_ID_INIT_SUBTYPE then some (dictGetD data "session_id" "") else none
    | _ => none

/-- The token captured from the last `init` system message of the
stream, or the empty string if there is none. -/
def capturedOf (messages : List SdkMessage) : String :=
  (initTokens messages).getLast?.getD ""

/-- A Slack event payload, restricted to the dict keys the handlers in
`bot.py` read; a field is `none` when the key is absent. -/
structure SlackEvent where
  user : Option String
  channel : Option String
  channel_type : Option String
  subtype : Option String
  text : Option String
  ts : Option String
  thread_ts : Option String
deriving DecidableEq

/-- The externally visible outcome of running a `bot.py` event handler
on one event: the event was ignored before any side effect, a fixed
rejection notice was posted to the thread, or an eyes reaction was
added and a job enqueued under `(channel, thread_ts)` with the given
prompt. -/
inductive HandlerAction where
  | ignored : HandlerAction
  | saidNotAuthorized : String → HandlerAction
  | saidProvidePrompt : String → HandlerAction
  | enqueuedJob : String → String → String → String → HandlerAction
deriving DecidableEq

/-- The `_dispatch` closure (`bot.py` lines 36-85): authorization check,
empty-prompt check, eyes reaction, then job submission.  The
`enqueuedJob` action records channel, thread_ts, the reacted-to message
ts and the prompt of the submitted job. -/
def dispatch (allowed_user_ids : List String) (e : SlackEvent) (prompt : String) :
    HandlerAction :=
  let user_id : String := e.user.getD ""
  let channel : String := e.channel.getD ""
  let thread_ts : String := e.thread_ts.getD (e.ts.getD "")
  if user_id ∉ allowed_user_ids then
    .saidNotAuthorized thread_ts
  else if prompt = "" then
    .saidProvidePrompt thread_ts
  else
    .enqueuedJob channel thread_ts (e.ts.getD "") prompt

/-- Python `text.split(">", 1)[-1]`: everything after the first `>`
character, or the whole string if it contains none. -/
def afterFirstGt (s : String) : String :=
  if s.data.contains '>' then ⟨(s.data.dropWhile (fun c => c != '>')).tail⟩ else s

/-- Python `str.strip()`: remove leading and trailing whitespace
(extensionally `String.trim`, stated over the character list). -/
def pyStrip (s : String) : String :=
  ⟨((s.data.dropWhile Char.isWhitespace).reverse.dropWhile Char.isWhitespace).reverse⟩

/-- The `app_mention` handler (`handle_mention`, `bot.py` lines 87-100). -/
def handle_mention (allowed_user_ids : List String) (e : SlackEvent) : HandlerAction :=
  let text : String := e.text.getD ""
  let prompt : String := pyStrip (afterFirstGt text)
  dispatch allowed_user_ids e prompt

/-- The `message` handler (`handle_direct_message`, `bot.py`
lines 102-120): non-IM events and events carrying any subtype are
dropped before `_dispatch` runs. -/
def handle_direct_message (allowed_user_ids : List String) (e : SlackEvent) :
    HandlerAction :=
  if e.channel_type ≠ some "im" then .ignored
  else if e.subtype ≠ none then .ignored
  else dispatch allowed_user_ids e (pyStrip (e.text.getD ""))

/-- A job submitted to `SessionQueue`, abstracted to what the ordering
claims observe: an identifier, the number of suspension points its body
takes after it starts (the awaits inside `_run_claude`, including the
session-store write and responder post that precede its return), and
whether the body ends by raising. -/
structure Job where
  ident : Nat
  steps : Nat
  fails : Bool
deriving DecidableEq

/-- The state of one consumer task spawned by `SessionQueue.enqueue`:
at the `while not queue.empty()` loop head (`session.py` line 114), or
inside `await job()` with the given job and number of remaining
suspension points (`session.py` line 118).  A task that has finished
deletes its own registration in the same scheduler slice
(`session.py` lines 125-126), so finished tasks never appear in the
consumer map and `self._consumers[key].done()` at line 99 is modelled
by absence from the map. -/
inductive ConsumerState where
  | loopHead : ConsumerState
  | running : Job → Nat → ConsumerState
deriving DecidableEq

/-- An observable event of the queue system, recorded in submission /
execution order: a job was submitted under a key
(`SessionQueue.enqueue` returned), a job was dequeued and its body
started, or a job's body returned (`True`) or raised and was caught
(`False`). -/
inductive QEvent where
  | submittedE : Key → Job → QEvent
  | startedE : Key → Job → QEvent
  | finishedE : Key → Job → Bool → QEvent
deriving DecidableEq

/-- Global state of `SessionQueue` plus the event history: the
`_queues` dict (each `asyncio.Queue` as the list of its pending jobs,
oldest first) and the `_consumers` dict (`session.py` lines 67-71). -/
structure QState where
  queues : Key → Option (List Job)
  consumers : Key → Option ConsumerState
  events : List QEvent

/-- Pointwise update of a dict modelled as a function into `Option`
(`d[k] = v` for `some`, `del d[k]` for `none`). -/
def mapUpdate {β : Type} (m : Key → Option β) (k : Key) (v : Option β) :
    Key → Option β :=
  fun q => if q = k then v else m q

/-- The initial state: both dicts empty (`SessionQueue.__init__`). -/
def initialQState : QState :=
  { queues := fun _ => none, consumers := fun _ => none, events := [] }

/-- One call of `SessionQueue.enqueue` (`session.py` lines 92-100), an
atomic scheduler slice: create the queue if absent, append the job
(`put` never suspends on an unbounded queue), and spawn a consumer task
if the key has none registered (a registered task is never `done()`,
see `ConsumerState`). -/
def SessionQueue.enqueue (s : QState) (k : Key) (j : Job) : QState :=
  let q : List Job := (s.queues k).getD []
  let queues2 : Key → Option (List Job) := mapUpdate s.queues k (some (q ++ [j]))
  let consumers2 : Key → Option ConsumerState :=
    match s.consumers k with
    | none => mapUpdate s.consumers k (some .loopHead)
    | some _ => s.consumers
  { queues := queues2, consumers := consumers2,
    events := s.events ++ [.submittedE k j] }

/-- The next scheduler slice of the consumer task for key `k`
(`SessionQueue._consume`, `session.py` lines 102-126), or `none` when
no such task is runnable:
at the loop head with a non-empty queue, dequeue the oldest job and
start its body (lines 114-118 up to the body's first suspension);
at the loop head with an empty queue, delete both dict entries and end
the task (lines 114, 125-126 — no suspension separates the emptiness
check from the deletions);
inside a body with suspension points left, resume to the next one;
inside a body at its last suspension, run to the end of the `try` —
an exception is caught and logged (lines 117-123) — and return to the
loop head. -/
def consumerStep (s : QState) (k : Key) : Option QState :=
  match s.consumers k with
  | none => none
  | some .loopHead =>
      match s.queues k with
      | some (j :: rest) =>
          some { queues := mapUpdate s.queues k (some rest),
                 consumers := mapUpdate s.consumers k (some (.running j j.steps)),
                 events := s.events ++ [.startedE k j] }
      | some [] =>
          some { queues := mapUpdate s.queues k none,
                 consumers := mapUpdate s.consumers k none,
                 events := s.events }
      | none => none
  | some (.running j (n + 1)) =>
      some { s with consumers := mapUpdate s.consumers k (some (.running j n)) }
  | some (.running j 0) =>
      some { queues := s.queues,
             consumers := mapUpdate s.consumers k (some .loopHead),
             events := s.events ++ [.finishedE k j (!j.fails)] }

/-- One step of the whole system: either some handler task submits a
job (`SessionQueue.enqueue` is atomic, see above), or the event loop
runs the next slice of the consumer task of some key. -/
inductive QStep : QState → QState → Prop where
  | enqueue (s : QState) (k : Key) (j : Job) : QStep s (SessionQueue.enqueue s k j)
  | consume (s s' : QState) (k : Key) : consumerStep s k = some s' → QStep s s'

/-- States reachable from the empty `SessionQueue` by any interleaving
of submissions and consumer slices. -/
inductive Reachable : QState → Prop where
  | init : Reachable initialQState
  | step {s s' : QState} : Reachable s → QStep s s' → Reachable s'

/-- The jobs submitted under key `k`, in submission order. -/
def submittedFor (k : Key) (evs : List QEvent) : List Job :=
  evs.filterMap fun e =>
    match e with
    | .submittedE q j => if q = k then some j else none
    | _ => none

/-- The jobs whose bodies started under key `k`, in start order. -/
def startedFor (k : Key) (evs : List QEvent) : List Job :=
  evs.filterMap fun e =>
    match e with
    | .startedE q j => if q = k then some j else none
    | _ => none

/-- The jobs whose bodies finished (returned or raised) under key `k`,
in completion order. -/
def finishedFor (k : Key) (evs : List QEvent) : List Job :=
  evs.filterMap fun e =>
    match e with
    | .finishedE q j _ => if q = k then some j else none
    | _ => none

/-- The job currently in flight for key `k` (at most one, since the
consumer map holds at most one task per key). -/
def inflight (s : QState) (k : Key) : List Job :=
  match s.consumers k with
  | some (.running j _) => [j]
  | _ => []

/-- The pending queue contents for key `k` (empty if the key has no
queue). -/
def queuedFor (s : QState) (k : Key) : List Job :=
  (s.queues k).getD []

/-- The per-key bookkeeping invariant: the submission history splits
into finished, in-flight and pending jobs in order; started jobs are
exactly the finished ones followed by the in-flight one; and the queue
dict and consumer dict have entries for exactly the same keys. -/
def KeyInv (s : QState) (k : Key) : Prop :=
  submittedFor k s.events = finishedFor k s.events ++ inflight s k ++ queuedFor s k
  ∧ startedFor k s.events = finishedFor k s.events ++ inflight s k
  ∧ ((s.queues k).isSome ↔ (s.consumers k).isSome)

/-- Fuelled iteration of the consumer task of key `k`: run its next
slice up to `n` times, stopping early if the task is gone. -/
def runK (k : Key) : Nat → QState → QState
  | 0, s => s
  | n + 1, s =>
      match consumerStep s k with
      | some s' => runK k n s'
      | none => s

@[simp]
theorem mapUpdate_self {β : Type} (m : Key → Option β) (k : Key) (v : Option β) :
    mapUpdate m k v k = v := by
  simp [mapUpdate]

@[simp]
theorem mapUpdate_other {β : Type} (m : Key → Option β) (k k' : Key) (v : Option β)
    (h : k' ≠ k) : mapUpdate m k v k' = m k' := by
  simp [mapUpdate, h]

@[simp]
theorem submittedFor_nil (k : Key) : submittedFor k [] = [] := rfl

@[simp]
theorem startedFor_nil (k : Key) : startedFor k [] = [] := rfl

@[simp]
theorem finishedFor_nil (k : Key) : finishedFor k [] = [] := rfl

@[simp]
theorem submittedFor_append (k : Key) (evs evs' : List QEvent) :
    submittedFor k (evs ++ evs') = submittedFor k evs ++ submittedFor k evs' := by
  simp [submittedFor, List.filterMap_append]

@[simp]
theorem startedFor_append (k : Key) (evs evs' : List QEvent) :
    startedFor k (evs ++ evs') = startedFor k evs ++ startedFor k evs' := by
  simp [startedFor, List.filterMap_append]

@[simp]
theorem finishedFor_append (k : Key) (evs evs' : List QEvent) :
    finishedFor k (evs ++ evs') = finishedFor k evs ++ finishedFor k evs' := by
  simp [finishedFor, List.filterMap_append]

theorem submittedFor_single_submitted (k q : Key) (j : Job) :
    submittedFor k [.submittedE q j] = if q = k then [j] else [] := by
  by_cases h : q = k <;> simp [submittedFor, h]

@[simp]
theorem submittedFor_single_started (k q : Key) (j : Job) :
    submittedFor k [.startedE q j] = [] := by
  simp [submittedFor]

@[simp]
theorem submittedFor_single_finished (k q : Key) (j : Job) (b : Bool) :
    submittedFor k [.finishedE q j b] = [] := by
  simp [submittedFor]

@[simp]
theorem startedFor_single_submitted (k q : Key) (j : Job) :
    startedFor k [.submittedE q j] = [] := by
  simp [startedFor]

theorem startedFor_single_started (k q : Key) (j : Job) :
    startedFor k [.startedE q j] = if q = k then [j] else [] := by
  by_cases h : q = k <;> simp [startedFor, h]

@[simp]
theorem startedFor_single_finished (k q : Key) (j : Job) (b : Bool) :
    startedFor k [.finishedE q j b] = [] := by
  simp [startedFor]

@[simp]
theorem finishedFor_single_submitted (k q : Key) (j : Job) :
    finishedFor k [.submittedE q j] = [] := by
  simp [finishedFor]

@[simp]
theorem finishedFor_single_started (k q : Key) (j : Job) :
    finishedFor k [.startedE q j] = [] := by
  simp [finishedFor]

theorem finishedFor_single_finished (k q : Key) (j : Job) (b : Bool) :
    finishedFor k [.finishedE q j b] = if q = k then [j] else [] := by
  by_cases h : q = k <;> simp [finishedFor, h]

theorem enqueue_events (s : QState) (k : Key) (j : Job) :
    (SessionQueue.enqueue s k j).events = s.events ++ [.submittedE k j] := rfl

theorem enqueue_queues_self (s : QState) (k : Key) (j : Job) :
    (SessionQueue.enqueue s k j).queues k = some (queuedFor s k ++ [j]) := by
  simp [SessionQueue.enqueue, queuedFor]

theorem enqueue_queues_other (s : QState) (k k' : Key) (j : Job) (h : k' ≠ k) :
    (SessionQueue.enqueue s k j).queues k' = s.queues k' := by
  simp [SessionQueue.enqueue, h]

theorem enqueue_consumers_none (s : QState) (k : Key) (j : Job)
    (h : s.consumers k = none) :
    (SessionQueue.enqueue s k j).consumers = mapUpdate s.consumers k (some .loopHead) := by
  simp [SessionQueue.enqueue, h]

theorem enqueue_consumers_some (s : QState) (k : Key) (j : Job) (c : ConsumerState)
    (h : s.consumers k = some c) :
    (SessionQueue.enqueue s k j).consumers = s.consumers := by
  simp [SessionQueue.enqueue, h]

theorem consumerStep_no_consumer (s : QState) (k : Key)
    (h : s.consumers k = none) : consumerStep s k = none := by
  simp [consumerStep, h]

theorem consumerStep_dequeue (s : QState) (k : Key) (j : Job) (rest : List Job)
    (hc : s.consumers k = some .loopHead) (hq : s.queues k = some (j :: rest)) :
    consumerStep s k =
      some { queues := mapUpdate s.queues k (some rest),
             consumers := mapUpdate s.consumers k (some (.running j j.steps)),
             events := s.events ++ [.startedE k j] } := by
  simp [consumerStep, hc, hq]

theorem consumerStep_retire (s : QState) (k : Key)
    (hc : s.consumers k = some .loopHead) (hq : s.queues k = some []) :
    consumerStep s k =
      some { queues := mapUpdate s.queues k none,
             consumers := mapUpdate s.consumers k none,
             events := s.events } := by
  simp [consumerStep, hc, hq]

theorem consumerStep_body (s : QState) (k : Key) (j : Job) (n : Nat)
    (hc : s.consumers k = some (.running j (n + 1))) :
    consumerStep s k =
      some { s with consumers := mapUpdate s.consumers k (some (.running j n)) } := by
  simp [consumerStep, hc]

theorem consumerStep_finish (s : QState) (k : Key) (j : Job)
    (hc : s.consumers k = some (.running j 0)) :
    consumerStep s k =
      some { queues := s.queues,
             consumers := mapUpdate s.consumers k (some .loopHead),
             events := s.events ++ [.finishedE k j (!j.fails)] } := by
  simp [consumerStep, hc]

theorem keyInv_initial (k : Key) : KeyInv initialQState k := by
  refine ⟨?_, ?_, ?_⟩ <;> simp [initialQState, inflight, queuedFor]

theorem keyInv_enqueue (s : QState) (k k' : Key) (j : Job) (h : KeyInv s k') :
    KeyInv (SessionQueue.enqueue s k j) k' := by
  obtain ⟨h1, h2, h3⟩ := h
  have hinfl : inflight (SessionQueue.enqueue s k j) k' = inflight s k' := by
    cases hcon : s.consumers k with
    | none =>
        by_cases hk : k' = k
        · subst hk; simp [inflight, enqueue_consumers_none s k' j hcon, hcon]
        · simp [inflight, enqueue_consumers_none s k j hcon, hk]
    | some c => simp [inflight, enqueue_consumers_some s k j c hcon]
  by_cases hk : k' = k
  · subst hk
    refine ⟨?_, ?_, ?_⟩
    · simp [enqueue_events, submittedFor_single_submitted, hinfl, queuedFor,
        enqueue_queues_self, h1]
    · simp [enqueue_events, hinfl, h2]
    · constructor
      · intro _
        cases hcon : s.consumers k' with
        | none => simp [enqueue_consumers_none s k' j hcon]
        | some c => simp [enqueue_consumers_some s k' j c hcon, hcon]
      · intro _; simp [enqueue_queues_self]
  · have hq : (SessionQueue.enqueue s k j).queues k' = s.queues k' :=
      enqueue_queues_other s k k' j hk
    have hcn : (SessionQueue.enqueue s k j).consumers k' = s.consumers k' := by
      cases hcon : s.consumers k with
      | none => simp [enqueue_consumers_none s k j hcon, hk]
      | some c => simp [enqueue_consumers_some s k j c hcon]
    refine ⟨?_, ?_, ?_⟩
    · simp [enqueue_events, submittedFor_single_submitted, Ne.symm hk, hinfl,
        queuedFor, hq, h1]
    · simp [enqueue_events, hinfl, h2]
    · rw [hq, hcn]; exact h3

theorem keyInv_after_dequeue (s : QState) (k k' : Key) (j : Job) (rest : List Job)
    (hc : s.consumers k = some .loopHead) (hq : s.queues k = some (j :: rest))
    (h : KeyInv s k') :
    KeyInv { queues := mapUpdate s.queues k (some rest),
             consumers := mapUpdate s.consumers k (some (.running j j.steps)),
             events := s.events ++ [.startedE k j] } k' := by
  obtain ⟨h1, h2, h3⟩ := h
  by_cases hk : k' = k
  · subst hk
    refine ⟨?_, ?_, ?_⟩
    · simp [inflight, queuedFor, hc, hq, h1]
    · simp [startedFor_single_started, inflight, hc, h2]
    · simp [inflight]
  · refine ⟨?_, ?_, ?_⟩
    · simp [submittedFor_append, inflight, queuedFor, hk, Ne.symm hk, h1]
    · simp [startedFor_single_started, inflight, queuedFor, hk, Ne.symm hk, h2]
    · simpa [hk] using h3

theorem keyInv_after_retire (s : QState) (k k' : Key)
    (hc : s.consumers k = some .loopHead) (hq : s.queues k = some [])
    (h : KeyInv s k') :
    KeyInv { queues := mapUpdate s.queues k none,
             consumers := mapUpdate s.consumers k none,
             events := s.events } k' := by
  obtain ⟨h1, h2, h3⟩ := h
  by_cases hk : k' = k
  · subst hk
    refine ⟨?_, ?_, ?_⟩
    · simp [inflight, queuedFor]
      simpa [inflight, queuedFor, hc, hq] using h1
    · simp [inflight]
      simpa [inflight, hc] using h2
    · simp [inflight]
  · refine ⟨?_, ?_, ?_⟩
    · simp [inflight, queuedFor, hk, Ne.symm hk, h1]
    · simp [inflight, queuedFor, hk, Ne.symm hk, h2]
    · simpa [hk] using h3

theorem keyInv_after_body (s : QState) (k k' : Key) (j : Job) (n : Nat)
    (hc : s.consumers k = some (.running j (n + 1)))
    (h : KeyInv s k') :
    KeyInv { s with consumers := mapUpdate s.consumers k (some (.running j n)) } k' := by
  obtain ⟨h1, h2, h3⟩ := h
  by_cases hk : k' = k
  · subst hk
    refine ⟨?_, ?_, ?_⟩
    · simp [inflight, queuedFor]
      simpa [inflight, queuedFor, hc] using h1
    · simp [inflight]
      simpa [inflight, hc] using h2
    · simp [hc] at h3
      simpa using h3
  · refine ⟨?_, ?_, ?_⟩
    · simp [inflight, queuedFor, hk, h1]
    · simp [inflight, hk, h2]
    · simpa [hk] using h3

theorem keyInv_after_finish (s : QState) (k k' : Key) (j : Job)
    (hc : s.consumers k = some (.running j 0))
    (h : KeyInv s k') :
    KeyInv { queues := s.queues,
             consumers := mapUpdate s.consumers k (some .loopHead),
             events := s.events ++ [.finishedE k j (!j.fails)] } k' := by
  obtain ⟨h1, h2, h3⟩ := h
  by_cases hk : k' = k
  · subst hk
    refine ⟨?_, ?_, ?_⟩
    · simp [finishedFor_single_finished, inflight, queuedFor]
      simpa [inflight, hc] using h1
    · simp [finishedFor_single_finished, startedFor_append, inflight]
      simpa [inflight, hc] using h2
    · simp [inflight]
      simp [hc] at h3
      simpa using h3
  · refine ⟨?_, ?_, ?_⟩
    · simp [finishedFor_single_finished, Ne.symm hk, inflight, queuedFor, hk, h1]
    · simp [finishedFor_single_finished, Ne.symm hk, inflight, hk, h2]
    · simpa [hk] using h3

theorem keyInv_consumerStep (s s' : QState) (k k' : Key)
    (hstep : consumerStep s k = some s') (h : KeyInv s k') : KeyInv s' k' := by
  cases hc : s.consumers k with
  | none => rw [consumerStep_no_consumer s k hc] at hstep; cases hstep
  | some c =>
    cases c with
    | loopHead =>
      cases hq : s.queues k with
      | none => simp [consumerStep, hc, hq] at hstep
      | some l =>
        cases l with
        | nil =>
            rw [consumerStep_retire s k hc hq] at hstep
            cases Option.some.inj hstep
            exact keyInv_after_retire s k k' hc hq h
        | cons j rest =>
            rw [consumerStep_dequeue s k j rest hc hq] at hstep
            cases Option.some.inj hstep
            exact keyInv_after_dequeue s k k' j rest hc hq h
    | running j n =>
      cases n with
      | zero =>
          rw [consumerStep_finish s k j hc] at hstep
          cases Option.some.inj hstep
          exact keyInv_after_finish s k k' j hc h
      | succ n =>
          rw [consumerStep_body s k j n hc] at hstep
          cases Option.some.inj hstep
          exact keyInv_after_body s k k' j n hc h

theorem reachable_keyInv {s : QState} (h : Reachable s) (k : Key) : KeyInv s k := by
  induction h with
  | init => exact keyInv_initial k
  | step _ hstep ih =>
      cases hstep with
      | enqueue k0 j => exact keyInv_enqueue _ k0 k j ih
      | consume _ k0 h0 => exact keyInv_consumerStep _ _ k0 k h0 ih

theorem consumerStep_elim {s s' : QState} {k : Key} {motive : Prop}
    (hstep : consumerStep s k = some s')
    (hdq : ∀ j rest, s.consumers k = some .loopHead → s.queues k = some (j :: rest) →
      s' = { queues := mapUpdate s.queues k (some rest),
             consumers := mapUpdate s.consumers k (some (.running j j.steps)),
             events := s.events ++ [.startedE k j] } → motive)
    (hrt : s.consumers k = some .loopHead → s.queues k = some [] →
      s' = { queues := mapUpdate s.queues k none,
             consumers := mapUpdate s.consumers k none,
             events := s.events } → motive)
    (hbd : ∀ j n, s.consumers k = some (.running j (n + 1)) →
      s' = { s with consumers := mapUpdate s.consumers k (some (.running j n)) } → motive)
    (hfn : ∀ j, s.consumers k = some (.running j 0) →
      s' = { queues := s.queues,
             consumers := mapUpdate s.consumers k (some .loopHead),
             events := s.events ++ [.finishedE k j (!j.fails)] } → motive) :
    motive := by
  cases hc : s.consumers k with
  | none => rw [consumerStep_no_consumer s k hc] at hstep; cases hstep
  | some c =>
    cases c with
    | loopHead =>
      cases hq : s.queues k with
      | none => simp [consumerStep, hc, hq] at hstep
      | some l =>
        cases l with
        | nil =>
            rw [consumerStep_retire s k hc hq] at hstep
            exact hrt hc hq (Option.some.inj hstep).symm
        | cons j rest =>
            rw [consumerStep_dequeue s k j rest hc hq] at hstep
            exact hdq j rest hc hq (Option.some.inj hstep).symm
    | running j n =>
      cases n with
      | zero =>
          rw [consumerStep_finish s k j hc] at hstep
          exact hfn j hc (Option.some.inj hstep).symm
      | succ n =>
          rw [consumerStep_body s k j n hc] at hstep
          exact hbd j n hc (Option.some.inj hstep).symm

/-- Work left in one job: its remaining suspension points plus the
dequeue and completion slices. -/
def jobWork (j : Job) : Nat := j.steps + 2

/-- Work left in a consumer task's own state. -/
def consWork : Option ConsumerState → Nat
  | none => 0
  | some .loopHead => 1
  | some (.running _ n) => n + 2

/-- Total scheduler slices the consumer task of key `k` still needs in
order to drain and retire, absent further submissions. -/
def keyMeasure (s : QState) (k : Key) : Nat :=
  consWork (s.consumers k) + ((queuedFor s k).map jobWork).sum +
    (if (s.queues k).isSome then 1 else 0)

theorem consumerStep_measure_lt {s s' : QState} {k : Key}
    (hstep : consumerStep s k = some s') : keyMeasure s' k < keyMeasure s k := by
  refine consumerStep_elim hstep ?_ ?_ ?_ ?_
  · intro j rest hc hq h
    subst h
    simp [keyMeasure, consWork, queuedFor, hc, hq, jobWork]
  · intro hc hq h
    subst h
    simp [keyMeasure, consWork, queuedFor, hc, hq]
  · intro j n hc h
    subst h
    simp [keyMeasure, consWork, queuedFor, hc]
  · intro j hc h
    subst h
    simp [keyMeasure, consWork, queuedFor, hc]

theorem consumerStep_enabled {s : QState} {k : Key} (hinv : KeyInv s k)
    (hc : (s.consumers k).isSome) : ∃ s', consumerStep s k = some s' := by
  obtain ⟨-, -, h3⟩ := hinv
  cases hcon : s.consumers k with
  | none => rw [hcon] at hc; cases hc
  | some c =>
    cases c with
    | loopHead =>
      have hqs : (s.queues k).isSome := h3.mpr (by rw [hcon]; rfl)
      cases hq : s.queues k with
      | none => rw [hq] at hqs; cases hqs
      | some l =>
        cases l with
        | nil => exact ⟨_, consumerStep_retire s k hcon hq⟩
        | cons j rest => exact ⟨_, consumerStep_dequeue s k j rest hcon hq⟩
    | running j n =>
      cases n with
      | zero => exact ⟨_, consumerStep_finish s k j hcon⟩
      | succ n => exact ⟨_, consumerStep_body s k j n hcon⟩

theorem consumerStep_submittedFor {s s' : QState} {k : Key} (k' : Key)
    (hstep : consumerStep s k = some s') :
    submittedFor k' s'.events = submittedFor k' s.events := by
  refine consumerStep_elim hstep ?_ ?_ ?_ ?_ <;> intros <;> subst_vars <;> simp

theorem consumerStep_other_key {s s' : QState} {k k' : Key}
    (hstep : consumerStep s k = some s') (hk : k' ≠ k) :
    s'.queues k' = s.queues k' ∧ s'.consumers k' = s.consumers k' ∧
      startedFor k' s'.events = startedFor k' s.events ∧
      finishedFor k' s'.events = finishedFor k' s.events := by
  refine consumerStep_elim hstep ?_ ?_ ?_ ?_ <;> intros <;> subst_vars <;>
    simp [hk, startedFor_single_started, finishedFor_single_finished, Ne.symm hk]

theorem consumerStep_isSome_congr {s s' : QState} (k' : Key)
    (hcon : s'.consumers k' = s.consumers k') (hq : s'.queues k' = s.queues k') :
    (consumerStep s' k').isSome = (consumerStep s k').isSome := by
  unfold consumerStep
  rw [hcon, hq]
  cases s.consumers k' with
  | none => rfl
  | some c =>
    cases c with
    | loopHead =>
      cases hql : s.queues k' with
      | none => rfl
      | some l => cases l <;> rfl
    | running j n => cases n <;> rfl

theorem reachable_consumerStep {s s' : QState} {k : Key} (h : Reachable s)
    (hstep : consumerStep s k = some s') : Reachable s' :=
  h.step (QStep.consume s s' k hstep)

theorem reachable_runK {k : Key} : ∀ (n : Nat) {s : QState}, Reachable s →
    Reachable (runK k n s) := by
  intro n
  induction n with
  | zero => intro s h; exact h
  | succ n ih =>
      intro s h
      cases hc : consumerStep s k with
      | none => simpa [runK, hc] using h
      | some s' =>
          have : runK k (n + 1) s = runK k n s' := by simp [runK, hc]
          rw [this]
          exact ih (reachable_consumerStep h hc)

theorem runK_submittedFor {k k' : Key} : ∀ (n : Nat) (s : QState),
    submittedFor k' (runK k n s).events = submittedFor k' s.events := by
  intro n
  induction n with
  | zero => intro s; rfl
  | succ n ih =>
      intro s
      cases hc : consumerStep s k with
      | none => simp [runK, hc]
      | some s' =>
          have h1 : runK k (n + 1) s = runK k n s' := by simp [runK, hc]
          rw [h1, ih s', consumerStep_submittedFor k' hc]

theorem drainK : ∀ (n : Nat) (s : QState) (k : Key), Reachable s →
    keyMeasure s k ≤ n →
    ∃ m, (runK k m s).consumers k = none ∧ (runK k m s).queues k = none ∧
      finishedFor k (runK k m s).events = submittedFor k s.events := by
  intro n
  induction n with
  | zero =>
      intro s k hr hm
      obtain ⟨h1, -, h3⟩ := reachable_keyInv hr k
      have hcw : consWork (s.consumers k) = 0 := by
        simp [keyMeasure] at hm
        omega
      have hcn : s.consumers k = none := by
        cases hcon : s.consumers k with
        | none => rfl
        | some c => rw [hcon] at hcw; cases c <;> simp [consWork] at hcw
      have hqn : s.queues k = none := by
        cases hq : s.queues k with
        | none => rfl
        | some l =>
            have : (s.consumers k).isSome := h3.mp (by rw [hq]; rfl)
            rw [hcn] at this; cases this
      refine ⟨0, hcn, hqn, ?_⟩
      have : inflight s k = [] := by simp [inflight, hcn]
      rw [h1, this]
      simp [runK, queuedFor, hqn]
  | succ n ih =>
      intro s k hr hm
      cases hcon : s.consumers k with
      | none =>
          obtain ⟨h1, -, h3⟩ := reachable_keyInv hr k
          have hqn : s.queues k = none := by
            cases hq : s.queues k with
            | none => rfl
            | some l =>
                have : (s.consumers k).isSome = true := h3.mp (by rw [hq]; rfl)
                rw [hcon] at this; cases this
          refine ⟨0, hcon, hqn, ?_⟩
          have : inflight s k = [] := by simp [inflight, hcon]
          rw [h1, this]
          simp [runK, queuedFor, hqn]
      | some c =>
          obtain ⟨s', hstep⟩ :=
            consumerStep_enabled (reachable_keyInv hr k) (by rw [hcon]; rfl)
          have hlt : keyMeasure s' k < keyMeasure s k := consumerStep_measure_lt hstep
          obtain ⟨m, hm1, hm2, hm3⟩ :=
            ih s' k (reachable_consumerStep hr hstep) (by omega)
          refine ⟨m + 1, ?_, ?_, ?_⟩
          · simpa [runK, hstep] using hm1
          · simpa [runK, hstep] using hm2
          · have heq : runK k (m + 1) s = runK k m s' := by simp [runK, hstep]
            rw [heq, hm3, consumerStep_submittedFor k hstep]

/-- Claim C1: for every conversation key, jobs submitted through
`SessionQueue.enqueue` execute strictly in submission order with at most
one job in flight at any time — at every reachable state the started
jobs are exactly the finished jobs followed by the (at most one)
in-flight job, and the submission history is exactly the started jobs
followed by the still-queued ones, so job `i+1` can only start once job
`i` has fully returned (its body, which includes the session-store
write and responder post, has completed); and a consumer slice for a
distinct key leaves this key's queue, consumer, events and enabledness
untouched, so jobs under distinct keys are not ordered with respect to
each other. -/
theorem enqueue_serial_in_order (s : QState) (hs : Reachable s) (k : Key) :
    startedFor k s.events = finishedFor k s.events ++ inflight s k
    ∧ (inflight s k).length ≤ 1
    ∧ submittedFor k s.events = startedFor k s.events ++ queuedFor s k
    ∧ (∀ (k' : Key) (s' : QState), k ≠ k' → consumerStep s k' = some s' →
        s'.queues k = s.queues k ∧ s'.consumers k = s.consumers k
        ∧ startedFor k s'.events = startedFor k s.events
        ∧ finishedFor k s'.events = finishedFor k s.events
        ∧ (consumerStep s' k).isSome = (consumerStep s k).isSome) := by
  obtain ⟨h1, h2, h3⟩ := reachable_keyInv hs k
  refine ⟨h2, ?_, ?_, ?_⟩
  · unfold inflight
    cases s.consumers k with
    | none => simp
    | some c => cases c <;> simp
  · rw [h2]
    exact h1
  · intro k' s' hk hstep
    obtain ⟨hq, hcn, hst, hfn⟩ := consumerStep_other_key hstep hk
    exact ⟨hq, hcn, hst, hfn, consumerStep_isSome_congr k hcn hq⟩

/-- A concrete conversation key used by the witnesses. -/
def kW : Key := ("C001", "111.000")

/-- A concrete job whose body has one suspension point and returns
normally. -/
def jW : Job := ⟨0, 1, false⟩

/-- The state after submitting `jW` under `kW` to an empty
`SessionQueue`. -/
def sW1 : QState := SessionQueue.enqueue initialQState kW jW

theorem reachable_sW1 : Reachable sW1 :=
  Reachable.step Reachable.init (QStep.enqueue initialQState kW jW)

/-- Witness for C1 at the concrete reachable state `sW1`. -/
theorem enqueue_serial_in_order_witness :
    Reachable sW1 ∧
    (startedFor kW sW1.events = finishedFor kW sW1.events ++ inflight sW1 kW
    ∧ (inflight sW1 kW).length ≤ 1
    ∧ submittedFor kW sW1.events = startedFor kW sW1.events ++ queuedFor sW1 kW
    ∧ (∀ (k' : Key) (s' : QState), kW ≠ k' → consumerStep sW1 k' = some s' →
        s'.queues kW = sW1.queues kW ∧ s'.consumers kW = sW1.consumers kW
        ∧ startedFor kW s'.events = startedFor kW sW1.events
        ∧ finishedFor kW s'.events = finishedFor kW sW1.events
        ∧ (consumerStep s' kW).isSome = (consumerStep sW1 kW).isSome)) :=
  ⟨reachable_sW1, enqueue_serial_in_order sW1 reachable_sW1 kW⟩

/-- Claim C2: no submission is ever lost or run twice — at every
reachable state the submission history for a key is exactly its
finished jobs followed by the in-flight one and the still-queued ones
(so each submission is finished at most once and is otherwise still
tracked); whenever work is pending the key has a registered consumer
with an enabled next slice (in particular, a submission arriving in the
would-be window between the consumer's emptiness check and its
deregistration cannot be dropped: `session.py` lines 114 and 125-126
run in one scheduler slice, and `enqueue` either finds the registration
gone and spawns afresh or finds a live consumer that must re-check the
queue); and running that key's consumer alone drains everything, ending
with every submitted job finished exactly once, in order. -/
theorem enqueue_exactly_once (s : QState) (hs : Reachable s) (k : Key) :
    submittedFor k s.events = finishedFor k s.events ++ inflight s k ++ queuedFor s k
    ∧ (queuedFor s k ≠ [] ∨ inflight s k ≠ [] →
        (s.consumers k).isSome ∧ ∃ s', consumerStep s k = some s')
    ∧ ∃ m, (runK k m s).consumers k = none ∧ (runK k m s).queues k = none
        ∧ finishedFor k (runK k m s).events = submittedFor k s.events := by
  obtain ⟨h1, h2, h3⟩ := reachable_keyInv hs k
  refine ⟨h1, ?_, drainK (keyMeasure s k) s k hs (Nat.le_refl _)⟩
  intro hpend
  have hcs : (s.consumers k).isSome := by
    rcases hpend with hq | hi
    · have : (s.queues k).isSome := by
        unfold queuedFor at hq
        cases hqq : s.queues k with
        | none => rw [hqq] at hq; simp at hq
        | some l => rfl
      exact h3.mp this
    · unfold inflight at hi
      cases hcc : s.consumers k with
      | none => rw [hcc] at hi; simp at hi
      | some c => rfl
  exact ⟨hcs, consumerStep_enabled ⟨h1, h2, h3⟩ hcs⟩

/-- Witness for C2 at the concrete reachable state `sW1`. -/
theorem enqueue_exactly_once_witness :
    Reachable sW1 ∧
    (submittedFor kW sW1.events
        = finishedFor kW sW1.events ++ inflight sW1 kW ++ queuedFor sW1 kW
    ∧ (queuedFor sW1 kW ≠ [] ∨ inflight sW1 kW ≠ [] →
        (sW1.consumers kW).isSome ∧ ∃ s', consumerStep sW1 kW = some s')
    ∧ ∃ m, (runK kW m sW1).consumers kW = none ∧ (runK kW m sW1).queues kW = none
        ∧ finishedFor kW (runK kW m sW1).events = submittedFor kW sW1.events) :=
  ⟨reachable_sW1, enqueue_exactly_once sW1 reachable_sW1 kW⟩

/-- Claim C3: when a job's body raises, the exception is caught at the
job boundary (`session.py` lines 117-123) — the consumer slice that
completes the failing job records the failure, returns the consumer to
its loop head with the key's queue untouched, and iterating that
consumer still finishes every submitted job, so one job's failure never
blocks sibling jobs or terminates the consumer. -/
theorem failing_job_does_not_block (s : QState) (hs : Reachable s) (k : Key) (j : Job)
    (hc : s.consumers k = some (.running j 0)) (hf : j.fails = true) :
    ∃ s', consumerStep s k = some s'
      ∧ s'.consumers k = some .loopHead
      ∧ s'.events = s.events ++ [.finishedE k j false]
      ∧ s'.queues k = s.queues k
      ∧ ∃ m, finishedFor k (runK k m s').events = submittedFor k s.events := by
  refine ⟨_, consumerStep_finish s k j hc, by simp, by simp [hf], rfl, ?_⟩
  have hstep := consumerStep_finish s k j hc
  have hr' := reachable_consumerStep hs hstep
  obtain ⟨m, -, -, h3⟩ := drainK (keyMeasure _ k) _ k hr' (Nat.le_refl _)
  refine ⟨m, ?_⟩
  rw [h3]
  simp

/-- A concrete job whose body raises immediately. -/
def jFail : Job := ⟨1, 0, true⟩

/-- A concrete job submitted behind `jFail` under the same key. -/
def jGood : Job := ⟨2, 0, false⟩

/-- The state after submitting `jFail` then `jGood` under `kW`. -/
def sW2 : QState := SessionQueue.enqueue (SessionQueue.enqueue initialQState kW jFail) kW jGood

/-- The state after the consumer for `kW` dequeues `jFail` in `sW2`. -/
def sW3 : QState :=
  { queues := mapUpdate sW2.queues kW (some [jGood]),
    consumers := mapUpdate sW2.consumers kW (some (.running jFail 0)),
    events := sW2.events ++ [.startedE kW jFail] }

theorem reachable_sW3 : Reachable sW3 :=
  Reachable.step
    (Reachable.step
      (Reachable.step Reachable.init (QStep.enqueue initialQState kW jFail))
      (QStep.enqueue (SessionQueue.enqueue initialQState kW jFail) kW jGood))
    (QStep.consume sW2 sW3 kW rfl)

/-- Witness for C3 at the concrete reachable state `sW3`, where the
failing job `jFail` is about to complete with `jGood` queued behind
it. -/
theorem failing_job_does_not_block_witness :
    Reachable sW3 ∧ sW3.consumers kW = some (.running jFail 0) ∧ jFail.fails = true ∧
    (∃ s', consumerStep sW3 kW = some s'
      ∧ s'.consumers kW = some .loopHead
      ∧ s'.events = sW3.events ++ [.finishedE kW jFail false]
      ∧ s'.queues kW = sW3.queues kW
      ∧ ∃ m, finishedFor kW (runK kW m s').events = submittedFor kW sW3.events) :=
  ⟨reachable_sW3, by decide, rfl,
    failing_job_does_not_block sW3 reachable_sW3 kW jFail (by decide) rfl⟩

/-- Claim C4: after the queue for a key fully drains, both the
`_queues` and `_consumers` entries for that key are deleted
(`session.py` lines 125-126), and a later `SessionQueue.enqueue` for
the same key creates a fresh queue holding the new job, spawns a fresh
consumer, and that job is still executed: draining again finishes the
whole old history plus the new job. -/
theorem drained_key_is_cleaned_up (s : QState) (hs : Reachable s) (k : Key) (j : Job) :
    ∃ m, (runK k m s).queues k = none ∧ (runK k m s).consumers k = none
      ∧ (SessionQueue.enqueue (runK k m s) k j).consumers k = some .loopHead
      ∧ (SessionQueue.enqueue (runK k m s) k j).queues k = some [j]
      ∧ ∃ m2, finishedFor k (runK k m2 (SessionQueue.enqueue (runK k m s) k j)).events
            = submittedFor k s.events ++ [j] := by
  obtain ⟨m, hm1, hm2, hm3⟩ := drainK (keyMeasure s k) s k hs (Nat.le_refl _)
  refine ⟨m, hm2, hm1, ?_, ?_, ?_⟩
  · rw [enqueue_consumers_none _ k j hm1]
    simp
  · rw [enqueue_queues_self]
    simp [queuedFor, hm2]
  · have hr' : Reachable (SessionQueue.enqueue (runK k m s) k j) :=
      Reachable.step (reachable_runK m hs) (QStep.enqueue (runK k m s) k j)
    obtain ⟨m2, -, -, h3⟩ := drainK (keyMeasure _ k) _ k hr' (Nat.le_refl _)
    refine ⟨m2, ?_⟩
    rw [h3, enqueue_events]
    simp [submittedFor_single_submitted, runK_submittedFor]

/-- Witness for C4 at the concrete reachable state `sW1`. -/
theorem drained_key_is_cleaned_up_witness :
    Reachable sW1 ∧
    (∃ m, (runK kW m sW1).queues kW = none ∧ (runK kW m sW1).consumers kW = none
      ∧ (SessionQueue.enqueue (runK kW m sW1) kW jGood).consumers kW = some .loopHead
      ∧ (SessionQueue.enqueue (runK kW m sW1) kW jGood).queues kW = some [jGood]
      ∧ ∃ m2, finishedFor kW
            (runK kW m2 (SessionQueue.enqueue (runK kW m sW1) kW jGood)).events
            = submittedFor kW sW1.events ++ [jGood]) :=
  ⟨reachable_sW1, drained_key_is_cleaned_up sW1 reachable_sW1 kW jGood⟩

/-- Claim C5 (settled against the embedding with the missing `)` of
`session.py` line 36 restored; the file as committed raises
`SyntaxError` on import, so `get` as written can never return — see
`SessionStore`): `set` then `get` round-trips, a later `set` for the
same key overwrites, writes leave every distinct key unchanged, a never
written key reads as absent, and `get` is a total pure function. -/
theorem session_store_round_trip (st : SessionStore) (c t c' t' v : String)
    (hne : (c', t') ≠ (c, t)) :
    (st.set c t "tok-1").get c t = some "tok-1"
    ∧ ((st.set c t "tok-1").set c t "tok-2").get c t = some "tok-2"
    ∧ (st.set c t v).get c' t' = st.get c' t'
    ∧ SessionStore.emptyStore.get c' t' = none := by
  refine ⟨?_, ?_, ?_, ?_⟩ <;>
    simp [SessionStore.get, SessionStore.set, SessionStore.emptyStore, hne]

/-- Witness for C5 on the keys used by the repository's own tests. -/
theorem session_store_round_trip_witness :
    ("C002", "123.456") ≠ (("C001" : String), ("123.456" : String))
    ∧ ((SessionStore.emptyStore.set "C001" "123.456" "tok-1").get "C001" "123.456"
          = some "tok-1"
    ∧ (((SessionStore.emptyStore.set "C001" "123.456" "tok-1").set "C001" "123.456"
          "tok-2").get "C001" "123.456" = some "tok-2")
    ∧ ((SessionStore.emptyStore.set "C001" "123.456" "v").get "C002" "123.456"
          = SessionStore.emptyStore.get "C002" "123.456")
    ∧ SessionStore.emptyStore.get "C002" "123.456" = none) :=
  ⟨by decide,
    session_store_round_trip SessionStore.emptyStore "C001" "123.456" "C002" "123.456"
      "v" (by decide)⟩

theorem string_take_of_length_le (s : String) (m : Nat) (h : s.length ≤ m) :
    s.take m = s := by
  rw [String.take_eq]
  exact congrArg String.mk (List.take_of_length_le h)

/-- Claim C6: for a success result (`is_error` false) whose output
exceeds the configured maximum length, `_format_response` hands the
converter exactly the first `max_length` characters of the output
followed by the truncation marker; output at or under the limit is
handed over whole, with no marker. -/
theorem success_output_truncation (convert : String → String) (r : ClaudeResult)
    (m : Nat) (he : r.is_error = false) :
    (r.output.length > m →
      format_response convert r m = convert (r.output.take m ++ truncationMarker))
    ∧ (r.output.length ≤ m → format_response convert r m = convert r.output) := by
  constructor
  · intro h
    simp [format_response, he, h]
  · intro h
    have hng : ¬ r.output.length > m := by omega
    simp [format_response, he, hng, string_take_of_length_le r.output m h]

/-- A concrete success result used by the C6 witness. -/
def rW6 : ClaudeResult := ⟨"abcdef", false, 1, 5, "sess"⟩

/-- Witness for C6: a 6-character success output with limit 3 is cut to
its first 3 characters plus the marker, and with limit 10 is passed
through unchanged. -/
theorem success_output_truncation_witness :
    rW6.is_error = false ∧ rW6.output.length > 3
    ∧ format_response id rW6 3 = "abc" ++ truncationMarker
    ∧ rW6.output.length ≤ 10 ∧ format_response id rW6 10 = "abcdef" :=
  ⟨rfl, by decide,
    by rw [(success_output_truncation id rW6 3 rfl).1 (by decide)]; rfl,
    by decide,
    by rw [(success_output_truncation id rW6 10 rfl).2 (by decide)]; rfl⟩

/-- Claim C7: for an error-flagged result, `_format_response` wraps the
(length-limited) output in the error-styled block whatever the output's
length, and the truncation marker is never appended: the marker text is
not a suffix of the formatted message. -/
theorem error_output_wrapped (convert : String → String) (r : ClaudeResult)
    (m : Nat) (he : r.is_error = true) :
    format_response convert r m
      = "⚠️ Claude encountered an error:\n```" ++ r.output.take m ++ "```"
    ∧ ¬ truncationMarker.data <:+ (format_response convert r m).data := by
  have hfmt : format_response convert r m
      = "⚠️ Claude encountered an error:\n```" ++ r.output.take m ++ "```" := by
    simp [format_response, he]
  refine ⟨hfmt, ?_⟩
  rw [hfmt]
  intro hsuf
  have hb : ("```" : String).data
      <:+ ("⚠️ Claude encountered an error:\n```" ++ r.output.take m ++ "```").data := by
    rw [String.data_append]
    exact List.suffix_append _ _
  rcases List.suffix_or_suffix_of_suffix hsuf hb with h | h
  · exact absurd h (by decide)
  · exact absurd h (by decide)

/-- A concrete error result, longer than the limit used by the C7
witness. -/
def rW7 : ClaudeResult := ⟨"Something broke badly", true, 1, 5, "sess"⟩

/-- Witness for C7 at limit 9: the error block around the truncated
output, with no truncation marker. -/
theorem error_output_wrapped_witness :
    rW7.is_error = true
    ∧ format_response id rW7 9 = "⚠️ Claude encountered an error:\n```Something```"
    ∧ ¬ truncationMarker.data <:+ (format_response id rW7 9).data :=
  ⟨rfl,
    by rw [(error_output_wrapped id rW7 9 rfl).1]; rfl,
    (error_output_wrapped id rW7 9 rfl).2⟩

/-- The allow-set used by the C8 material. -/
def allowedW : List String := ["U001"]

/-- An `app_mention` event from an authorized user that carries a
non-empty subtype. -/
def evMention : SlackEvent :=
  { user := some "U001", channel := some "C001", channel_type := none,
    subtype := some "message_changed", text := some "<@BOT123> hi",
    ts := some "1.0", thread_ts := none }

/-- Counterexample to claim C8 as stated: an `app_mention` event
carrying the non-empty subtype `message_changed` is not ignored —
`handle_mention` never inspects the subtype, so the event passes
authorization, the message is reacted to and a job is enqueued. -/
theorem mention_subtype_not_ignored :
    evMention.subtype = some "message_changed"
    ∧ handle_mention allowedW evMention
        = .enqueuedJob "C001" "1.0" "1.0" "hi"
    ∧ handle_mention allowedW evMention ≠ .ignored := by
  refine ⟨rfl, by decide, by decide⟩

/-- Claim C8 as amended: on the direct-message path every event
carrying a subtype is ignored before the authorization check (no
rejection notice, no reaction, no job), while the `app_mention` path
does not inspect the subtype at all — its outcome is identical with
the subtype field cleared. -/
theorem subtype_filtered_on_dm_path_only :
    (∀ (allowed : List String) (e : SlackEvent), e.subtype ≠ none →
        handle_direct_message allowed e = .ignored)
    ∧ (∀ (allowed : List String) (e : SlackEvent),
        handle_mention allowed e = handle_mention allowed { e with subtype := none }) := by
  constructor
  · intro allowed e h
    by_cases hct : e.channel_type ≠ some "im" <;> simp [handle_direct_message, hct, h]
  · intro allowed e
    rfl

/-- A direct-message event carrying a non-empty subtype, for the C8
witness. -/
def evDm : SlackEvent :=
  { user := some "U001", channel := some "D001", channel_type := some "im",
    subtype := some "message_changed", text := some "edited text",
    ts := some "2.0", thread_ts := none }

/-- Witness for the amended C8: the subtyped direct message is
ignored. -/
theorem subtype_filtered_on_dm_path_only_witness :
    evDm.subtype ≠ none ∧ handle_direct_message allowedW evDm = .ignored :=
  ⟨by decide, subtype_filtered_on_dm_path_only.1 allowedW evDm (by decide)⟩

/-- Claim C9: when the stream carries a session token both in an early
`init` system message and in the final result message, and both are
non-empty, `run_claude` returns the final result's token
(`claude_runner.py` line 124 prefers `message.session_id` whenever it
is non-empty). -/
theorem final_result_token_wins (initTok finalTok : String) (txt : Option String)
    (err : Bool) (nt dm : Nat) (hi : initTok ≠ "") (hf : finalTok ≠ "") :
    (run_claude [.system "init" [("session_id", initTok)],
                 .result txt err nt dm finalTok]).session_id = finalTok := by
  simp [run_claude, runClaudeStep, SESSION_ID_INIT_SUBTYPE, dictGetD, pyOrStr,
    List.find?, hf]

/-- Witness for C9 with the token pair of the repository's own test
`test_session_id_from_result_takes_precedence`. -/
theorem final_result_token_wins_witness :
    ("sess-from-init" : String) ≠ "" ∧ ("sess-from-result" : String) ≠ ""
    ∧ (run_claude [.system "init" [("session_id", "sess-from-init")],
        .result (some "ok") false 1 100 "sess-from-result"]).session_id
      = "sess-from-result" :=
  ⟨by decide, by decide,
    final_result_token_wins "sess-from-init" "sess-from-result" (some "ok") false 1 100
      (by decide) (by decide)⟩

theorem getLastD_cons_eq {α : Type} (a c : α) (l : List α) :
    ((a :: l).getLast?).getD c = (l.getLast?).getD a := by
  induction l generalizing a c with
  | nil => rfl
  | cons b t ih => rw [List.getLast?_cons_cons, ih b c, ih b a]

theorem initTokens_cons_init (st : String) (d : List (String × String))
    (ms : List SdkMessage) (hst : st = SESSION_ID_INIT_SUBTYPE) :
    initTokens (.system st d :: ms) = dictGetD d "session_id" "" :: initTokens ms := by
  simp [initTokens, hst]

theorem initTokens_cons_system_skip (st : String) (d : List (String × String))
    (ms : List SdkMessage) (hst : ¬ st = SESSION_ID_INIT_SUBTYPE) :
    initTokens (.system st d :: ms) = initTokens ms := by
  simp [initTokens, hst]

theorem initTokens_cons_other (ms : List SdkMessage) :
    initTokens (.otherMessage :: ms) = initTokens ms := by
  simp [initTokens]

theorem foldl_no_result (msgs : List SdkMessage) :
    ∀ (acc : RunAcc), (∀ m ∈ msgs, m.isResult = false) →
      msgs.foldl runClaudeStep acc =
        ⟨acc.result, ((initTokens msgs).getLast?).getD acc.captured_session_id⟩ := by
  induction msgs with
  | nil =>
      intro acc h
      cases acc
      rfl
  | cons m ms ih =>
      intro acc h
      have hm := h m (List.mem_cons_self m ms)
      have hms : ∀ x ∈ ms, x.isResult = false :=
        fun x hx => h x (List.mem_cons_of_mem m hx)
      cases m with
      | system st d =>
          by_cases hst : st = SESSION_ID_INIT_SUBTYPE
          · rw [List.foldl_cons]
            have hstep : runClaudeStep acc (.system st d)
                = { acc with captured_session_id := dictGetD d "session_id" "" } := by
              simp [runClaudeStep, hst]
            rw [hstep, ih _ hms, initTokens_cons_init st d ms hst, getLastD_cons_eq]
          · rw [List.foldl_cons]
            have hstep : runClaudeStep acc (.system st d) = acc := by
              simp [runClaudeStep, hst]
            rw [hstep, ih _ hms, initTokens_cons_system_skip st d ms hst]
      | result txt err nt dm sid =>
          exact absurd hm (by simp [SdkMessage.isResult])
      | otherMessage =>
          rw [List.foldl_cons]
          have hstep : runClaudeStep acc .otherMessage = acc := rfl
          rw [hstep, ih _ hms, initTokens_cons_other ms]

/-- Claim C10: when the stream ends without any result message,
`run_claude` returns normally with the fixed fallback: `is_error` true,
output `"No result received from Claude."`, zero turns and duration,
and as session id the token captured from the (last) `init` system
message, or the empty string if none was seen
(`claude_runner.py` lines 134-143). -/
theorem no_result_fallback (messages : List SdkMessage)
    (h : ∀ m ∈ messages, m.isResult = false) :
    run_claude messages =
      ⟨"No result received from Claude.", true, 0, 0, capturedOf messages⟩ := by
  unfold run_claude
  rw [foldl_no_result messages ⟨none, ""⟩ h]
  rfl

/-- A concrete result-free stream for the C10 witness: one `init`
system message and one unrelated message. -/
def msgsW : List SdkMessage :=
  [.system "init" [("session_id", "tok-a")], .otherMessage]

/-- Witness for C10: the fallback result with the init-captured
token. -/
theorem no_result_fallback_witness :
    (∀ m ∈ msgsW, m.isResult = false)
    ∧ run_claude msgsW
      = ⟨"No result received from Claude.", true, 0, 0, "tok-a"⟩ :=
  ⟨by decide, by rw [no_result_fallback msgsW (by decide)]; rfl⟩

end ClaudeSlackBot
